import Mathlib

/-!
Verification of the review-scheduling core of the interview-trainer
application: the SuperMemo-2 calculator (`lib/sm2.ts`), the bucket
classification and session composition of the questions route
(`app/api/quiz/questions/[topic]/route.ts`), the sliding-window rate
limiters (`lib/loginRateLimit.ts`, `lib/registerRateLimit.ts`), the
category interleaving of the game store, and the per-item persistence
loop of the session route (`app/api/quiz/session/route.ts`).

JavaScript numbers are modelled as rationals (`ℚ`); timestamps
(millisecond epoch values) as integers (`ℤ`).
-/

/-- JavaScript `Math.round`: rounds half toward positive infinity. -/
def jsRound (x : ℚ) : ℤ := ⌊x + 1/2⌋

/-- JavaScript `Number(x.toFixed(2))`: rounding to two decimal places. -/
def round2 (x : ℚ) : ℚ := ((jsRound (x * 100) : ℤ) : ℚ) / 100

/-- Input of `calculateSM2` (interface `SM2Input` in `lib/sm2.ts`).
`quality` is typed `0 | 1 | 2 | 3 | 4 | 5` in the source. -/
structure SM2Input where
  quality : ℕ
  previousInterval : ℚ
  previousRepetition : ℤ
  previousEF : ℚ
deriving Repr, DecidableEq

/-- Output of `calculateSM2` (interface `SM2Result` in `lib/sm2.ts`).
The `nextReview` date is `now + interval` days and is determined by
`interval`, so it is not carried separately in the embedding. -/
structure SM2Result where
  interval : ℚ
  repetition : ℤ
  easinessFactor : ℚ
deriving Repr, DecidableEq

/-- Embedding of `calculateSM2` from `lib/sm2.ts`. -/
def calculateSM2 (inp : SM2Input) : SM2Result :=
  let safePreviousEF := max (13/10 : ℚ) inp.previousEF
  let repetition : ℤ := if inp.quality < 3 then 0 else inp.previousRepetition + 1
  let interval : ℚ :=
    if inp.quality < 3 then 1
    else if repetition = 1 then 1
    else if repetition = 2 then 6
    else ((max 1 (jsRound (inp.previousInterval * safePreviousEF)) : ℤ) : ℚ)
  let easinessFactor : ℚ :=
    max (13/10)
      (safePreviousEF +
        (1/10 - ((5 : ℚ) - inp.quality) * (2/25 + ((5 : ℚ) - inp.quality) * (1/50))))
  { interval := interval, repetition := repetition, easinessFactor := round2 easinessFactor }

/-- Chain of quality-5 reviews starting from the state the session route
gives a freshly studied question (`previousInterval = 1`,
`previousRepetition = 0`, `previousEF = 2.5`), each call fed the previous
call's outputs. -/
def sm2Quality5Chain : ℕ → SM2Result
  | 0 => { interval := 1, repetition := 0, easinessFactor := 5/2 }
  | n + 1 =>
      let prev := sm2Quality5Chain n
      calculateSM2
        { quality := 5, previousInterval := prev.interval,
          previousRepetition := prev.repetition, previousEF := prev.easinessFactor }

theorem le_round2_of_le (x : ℚ) (h : 13/10 ≤ x) : 13/10 ≤ round2 x := by
  have h130 : (130 : ℤ) ≤ jsRound (x * 100) := by
    rw [jsRound, Int.le_floor]
    push_cast
    linarith
  have hq : ((130 : ℤ) : ℚ) ≤ ((jsRound (x * 100) : ℤ) : ℚ) := by exact_mod_cast h130
  rw [round2]
  push_cast at hq
  linarith

/-- C1: for every quality grade strictly below 3 and every prior state,
`calculateSM2` resets `repetition` to 0 and `interval` to 1; the concrete
input `{quality 2, previousInterval 6, previousRepetition 3,
previousEF 2.5}` yields `{repetition 0, interval 1, easinessFactor 2.18}`. -/
theorem calculateSM2_failed_recall_resets (q : ℕ) (i ef : ℚ) (r : ℤ) (hq : q < 3) :
    (calculateSM2 ⟨q, i, r, ef⟩).repetition = 0 ∧
    (calculateSM2 ⟨q, i, r, ef⟩).interval = 1 ∧
    calculateSM2 ⟨2, 6, 3, 5/2⟩ =
      { interval := 1, repetition := 0, easinessFactor := 109/50 } := by
  refine ⟨?_, ?_, ?_⟩
  · simp [calculateSM2, hq]
  · simp [calculateSM2, hq]
  · norm_num [calculateSM2, round2, jsRound, max_def]

/-- Closed witness for `calculateSM2_failed_recall_resets` at quality 2. -/
theorem calculateSM2_failed_recall_resets_witness :
    (calculateSM2 ⟨2, 6, 3, 5/2⟩).repetition = 0 ∧
    (calculateSM2 ⟨2, 6, 3, 5/2⟩).interval = 1 :=
  ⟨(calculateSM2_failed_recall_resets 2 6 (5/2) 3 (by norm_num)).1,
   (calculateSM2_failed_recall_resets 2 6 (5/2) 3 (by norm_num)).2.1⟩

/-- C2: for quality at least 3, `calculateSM2` increments `repetition` and
follows the graduated interval ladder (1, then 6, then
`round(previousInterval * flooredPreviousEF)` with minimum 1); the chain of
three quality-5 calls starting from a fresh item's state has intervals
1, 6, 16, non-decreasing, with the third at least 14. -/
theorem calculateSM2_successful_recall (q : ℕ) (i ef : ℚ) (r : ℤ) (h3 : 3 ≤ q) :
    (calculateSM2 ⟨q, i, r, ef⟩).repetition = r + 1 ∧
    (r + 1 = 1 → (calculateSM2 ⟨q, i, r, ef⟩).interval = 1) ∧
    (r + 1 = 2 → (calculateSM2 ⟨q, i, r, ef⟩).interval = 6) ∧
    (r + 1 ≠ 1 → r + 1 ≠ 2 →
      (calculateSM2 ⟨q, i, r, ef⟩).interval =
        ((max 1 (jsRound (i * max (13/10) ef)) : ℤ) : ℚ)) ∧
    (sm2Quality5Chain 1).repetition = 1 ∧ (sm2Quality5Chain 1).interval = 1 ∧
    (sm2Quality5Chain 2).repetition = 2 ∧ (sm2Quality5Chain 2).interval = 6 ∧
    (sm2Quality5Chain 3).repetition = 3 ∧ (sm2Quality5Chain 3).interval = 16 ∧
    (sm2Quality5Chain 1).interval ≤ (sm2Quality5Chain 2).interval ∧
    (sm2Quality5Chain 2).interval ≤ (sm2Quality5Chain 3).interval ∧
    14 ≤ (sm2Quality5Chain 3).interval := by
  have hq : ¬ q < 3 := by omega
  have hc1 : sm2Quality5Chain 1 = ⟨1, 1, 13/5⟩ := by
    rw [show (1:ℕ) = 0 + 1 from rfl, sm2Quality5Chain, sm2Quality5Chain]
    norm_num [calculateSM2, round2, jsRound, max_def]
  have hc2 : sm2Quality5Chain 2 = ⟨6, 2, 27/10⟩ := by
    rw [show (2:ℕ) = 1 + 1 from rfl, sm2Quality5Chain, hc1]
    norm_num [calculateSM2, round2, jsRound, max_def]
  have hc3 : sm2Quality5Chain 3 = ⟨16, 3, 14/5⟩ := by
    rw [show (3:ℕ) = 2 + 1 from rfl, sm2Quality5Chain, hc2]
    norm_num [calculateSM2, round2, jsRound, max_def]
  refine ⟨by simp [calculateSM2, hq], ?_, ?_, ?_, ?_⟩
  · intro h1
    simp [calculateSM2, hq, h1]
  · intro h2
    simp [calculateSM2, hq, h2]
  · intro h1 h2
    simp [calculateSM2, hq, h1, h2]
  · rw [hc1, hc2, hc3]
    norm_num

/-- Closed witness for `calculateSM2_successful_recall` at quality 5. -/
theorem calculateSM2_successful_recall_witness :
    (3 : ℕ) ≤ 5 ∧ (calculateSM2 ⟨5, 2, 0, 5/2⟩).repetition = 0 + 1 :=
  ⟨by norm_num, (calculateSM2_successful_recall 5 2 (5/2) 0 (by norm_num)).1⟩

/-- C3: for every input with a quality grade up to 5 and any prior state
(including a `previousEF` below 1.3), `calculateSM2` returns an interval
of at least 1 and an easiness factor of at least 1.3 after rounding. -/
theorem calculateSM2_invariant (inp : SM2Input) (hq : inp.quality ≤ 5) :
    1 ≤ (calculateSM2 inp).interval ∧ 13/10 ≤ (calculateSM2 inp).easinessFactor := by
  constructor
  · simp only [calculateSM2]
    split_ifs with h1 h2 h3
    · norm_num
    · norm_num
    · norm_num
    · exact_mod_cast le_max_left (1 : ℤ) _
  · simp only [calculateSM2]
    exact le_round2_of_le _ (le_max_left _ _)

/-- Closed witness for `calculateSM2_invariant` at a corrupt prior state. -/
theorem calculateSM2_invariant_witness :
    (SM2Input.mk 0 0 (-5) 1).quality ≤ 5 ∧
    1 ≤ (calculateSM2 ⟨0, 0, -5, 1⟩).interval ∧
    13/10 ≤ (calculateSM2 ⟨0, 0, -5, 1⟩).easinessFactor :=
  ⟨by norm_num, calculateSM2_invariant ⟨0, 0, -5, 1⟩ (by norm_num)⟩

/-- Question shape served by the quiz routes (`GameQuestion` in
`components/game/GameEngine`): an id, a category label and a type tag. -/
structure GameQuestion where
  id : String
  category : String
  type : String
deriving Repr, DecidableEq

/-- Progress lookup used by the questions route: the `nextReview`
timestamp (millisecond epoch) of the user's record for a question id,
if one exists. -/
abbrev ProgressMap : Type := String → Option ℤ

/-- Overdue test of the bucket loop: a record exists and
`nextReview <= now`. -/
def isDue (pm : ProgressMap) (now : ℤ) (q : GameQuestion) : Bool :=
  match pm q.id with
  | some nextReview => decide (nextReview ≤ now)
  | none => false

/-- New-question test of the bucket loop: no progress record. -/
def isFresh (pm : ProgressMap) (q : GameQuestion) : Bool :=
  (pm q.id).isNone

/-- Not-yet-due test of the bucket loop: a record exists and
`nextReview > now`. -/
def isScheduled (pm : ProgressMap) (now : ℤ) (q : GameQuestion) : Bool :=
  match pm q.id with
  | some nextReview => decide (now < nextReview)
  | none => false

/-- The `due` bucket built by the classification loop of
`app/api/quiz/questions/[topic]/route.ts`, in pool order. -/
def dueList (pm : ProgressMap) (now : ℤ) (pool : List GameQuestion) : List GameQuestion :=
  pool.filter (isDue pm now)

/-- The `fresh` bucket of the classification loop, in pool order. -/
def freshList (pm : ProgressMap) (pool : List GameQuestion) : List GameQuestion :=
  pool.filter (isFresh pm)

/-- The `scheduled` bucket of the classification loop, in pool order. -/
def scheduledList (pm : ProgressMap) (now : ℤ) (pool : List GameQuestion) : List GameQuestion :=
  pool.filter (isScheduled pm now)

theorem buckets_append_perm (pm : ProgressMap) (now : ℤ) (pool : List GameQuestion) :
    (dueList pm now pool ++ freshList pm pool ++ scheduledList pm now pool).Perm pool := by
  induction pool with
  | nil => simp [dueList, freshList, scheduledList]
  | cons q rest ih =>
    simp only [dueList, freshList, scheduledList, List.filter_cons] at ih ⊢
    cases h : pm q.id with
    | none =>
      have hd : isDue pm now q = false := by simp [isDue, h]
      have hf : isFresh pm q = true := by simp [isFresh, h]
      have hs : isScheduled pm now q = false := by simp [isScheduled, h]
      simp only [hd, hf, hs, Bool.false_eq_true, if_false, if_true, ite_true, ite_false]
      exact List.Perm.trans (List.perm_middle.append_right _) (ih.cons q)
    | some nr =>
      rcases le_or_lt nr now with hle | hlt
      · have hd : isDue pm now q = true := by simp [isDue, h, hle]
        have hf : isFresh pm q = false := by simp [isFresh, h]
        have hs : isScheduled pm now q = false := by
          simp [isScheduled, h, not_lt.mpr hle]
        simp only [hd, hf, hs, Bool.false_eq_true, if_false, if_true, ite_true, ite_false]
        exact ih.cons q
      · have hd : isDue pm now q = false := by simp [isDue, h, not_le.mpr hlt]
        have hf : isFresh pm q = false := by simp [isFresh, h]
        have hs : isScheduled pm now q = true := by simp [isScheduled, h, hlt]
        simp only [hd, hf, hs, Bool.false_eq_true, if_false, if_true, ite_true, ite_false]
        exact List.Perm.trans List.perm_middle (ih.cons q)

theorem buckets_mutually_exclusive (pm : ProgressMap) (now : ℤ) (pool : List GameQuestion)
    (q : GameQuestion) :
    ¬(q ∈ dueList pm now pool ∧ q ∈ freshList pm pool) ∧
    ¬(q ∈ dueList pm now pool ∧ q ∈ scheduledList pm now pool) ∧
    ¬(q ∈ freshList pm pool ∧ q ∈ scheduledList pm now pool) := by
  refine ⟨fun hc => ?_, fun hc => ?_, fun hc => ?_⟩
  · have p1 := (List.mem_filter.mp hc.1).2
    have p2 := (List.mem_filter.mp hc.2).2
    cases h : pm q.id <;> simp_all [isDue, isFresh, isScheduled]
  · have p1 := (List.mem_filter.mp hc.1).2
    have p2 := (List.mem_filter.mp hc.2).2
    cases h : pm q.id <;> simp_all [isDue, isFresh, isScheduled] <;> omega
  · have p1 := (List.mem_filter.mp hc.1).2
    have p2 := (List.mem_filter.mp hc.2).2
    cases h : pm q.id <;> simp_all [isDue, isFresh, isScheduled]

/-- C4: the bucket classification of the questions route assigns each pool
question to exactly one bucket: the concatenation overdue ++ new ++
scheduled is a permutation of the pool (no loss, no duplication), and no
question belongs to two distinct buckets. -/
theorem bucketClassification_partition (pm : ProgressMap) (now : ℤ)
    (pool : List GameQuestion) :
    (dueList pm now pool ++ freshList pm pool ++ scheduledList pm now pool).Perm pool ∧
    (∀ q ∈ pool, q ∈ dueList pm now pool ∨ q ∈ freshList pm pool ∨
      q ∈ scheduledList pm now pool) ∧
    ∀ q : GameQuestion,
      ¬(q ∈ dueList pm now pool ∧ q ∈ freshList pm pool) ∧
      ¬(q ∈ dueList pm now pool ∧ q ∈ scheduledList pm now pool) ∧
      ¬(q ∈ freshList pm pool ∧ q ∈ scheduledList pm now pool) := by
  refine ⟨buckets_append_perm pm now pool, fun q hq => ?_,
    fun q => buckets_mutually_exclusive pm now pool q⟩
  have hmem : q ∈ dueList pm now pool ++ freshList pm pool ++ scheduledList pm now pool :=
    (buckets_append_perm pm now pool).mem_iff.mpr hq
  rcases List.mem_append.mp hmem with hdf | hsch
  · rcases List.mem_append.mp hdf with hd | hf
    · exact Or.inl hd
    · exact Or.inr (Or.inl hf)
  · exact Or.inr (Or.inr hsch)

/-- Closed witness for `bucketClassification_partition` on a one-question
pool with no progress record. -/
theorem bucketClassification_partition_witness :
    GameQuestion.mk "a" "c" "QUIZ_SIMPLE" ∈ dueList (fun _ => none) 0 [⟨"a", "c", "QUIZ_SIMPLE"⟩] ∨
    GameQuestion.mk "a" "c" "QUIZ_SIMPLE" ∈ freshList (fun _ => none) [⟨"a", "c", "QUIZ_SIMPLE"⟩] ∨
    GameQuestion.mk "a" "c" "QUIZ_SIMPLE" ∈
      scheduledList (fun _ => none) 0 [⟨"a", "c", "QUIZ_SIMPLE"⟩] :=
  (bucketClassification_partition (fun _ => none) 0 [⟨"a", "c", "QUIZ_SIMPLE"⟩]).2.1
    ⟨"a", "c", "QUIZ_SIMPLE"⟩ (by simp)

/-- Count clamping of the questions route: a parsed count is clamped into
`[1, 30]`; an unparseable count (`none`) falls back to 10. -/
def clampCount : Option ℤ → ℤ
  | none => 10
  | some n => min 30 (max 1 n)

/-- Session composition of the questions route: the shuffled buckets are
concatenated (overdue, then new, then scheduled) and truncated to the
requested count. The shuffle outcomes arrive as explicit lists. -/
def composeSession (d' f' s' : List GameQuestion) (k : ℕ) : List GameQuestion :=
  (d' ++ f' ++ s').take k

/-- C5: for every shuffle outcome, the composed session has length
`min k (pool length)` with `k` the clamped count, its first
`min k |overdue|` elements all come from the overdue bucket, and the
clamping maps `none` to 10 and every parsed count into `[1, 30]`. -/
theorem composeSession_spec (pm : ProgressMap) (now : ℤ) (pool : List GameQuestion)
    (c : Option ℤ) (d' f' s' : List GameQuestion)
    (hd : d'.Perm (dueList pm now pool)) (hf : f'.Perm (freshList pm pool))
    (hs : s'.Perm (scheduledList pm now pool)) :
    (composeSession d' f' s' (clampCount c).toNat).length =
      min (clampCount c).toNat pool.length ∧
    (∀ x ∈ (composeSession d' f' s' (clampCount c).toNat).take
        (dueList pm now pool).length, x ∈ dueList pm now pool) ∧
    clampCount none = 10 ∧
    (∀ n : ℤ, 1 ≤ clampCount (some n) ∧ clampCount (some n) ≤ 30) := by
  have hpool : (d' ++ f' ++ s').length = pool.length :=
    (((hd.append hf).append hs).trans (buckets_append_perm pm now pool)).length_eq
  refine ⟨?_, ?_, rfl, ?_⟩
  · rw [composeSession, List.length_take, hpool]
  · intro x hx
    rw [composeSession, List.take_take] at hx
    have hm : min (dueList pm now pool).length (clampCount c).toNat ≤ d'.length := by
      rw [hd.length_eq]
      exact min_le_left _ _
    rw [List.append_assoc, List.take_append_eq_append_take,
      Nat.sub_eq_zero_of_le hm, List.take_zero, List.append_nil] at hx
    exact hd.subset (List.take_subset _ _ hx)
  · intro n
    constructor <;> simp [clampCount] <;> omega

/-- Closed witness for `composeSession_spec`: one overdue and one new
question, requested count 1. -/
theorem composeSession_spec_witness :
    (composeSession [⟨"a", "c", "T"⟩] [⟨"b", "c", "T"⟩] [] (clampCount (some 1)).toNat).length =
      min (clampCount (some 1)).toNat
        ([⟨"a", "c", "T"⟩, ⟨"b", "c", "T"⟩] : List GameQuestion).length ∧
    clampCount none = 10 :=
  have h := composeSession_spec (fun s => if s = "a" then some 0 else none) 5
    [⟨"a", "c", "T"⟩, ⟨"b", "c", "T"⟩] (some 1) [⟨"a", "c", "T"⟩] [⟨"b", "c", "T"⟩] []
    (by simp [dueList, isDue]) (by simp [freshList, isFresh])
    (by simp [scheduledList, isScheduled])
  ⟨h.1, h.2.2.1⟩

/-- Remix pool construction of the questions route: the candidate pool is
restricted up front to questions that already have a progress record for
the requesting user, then optionally narrowed to a caller-supplied topic
subset (given here as an id predicate), then optionally to one question
type. -/
def remixPool (pm : ProgressMap) (base : List GameQuestion)
    (allowedIds : Option (String → Bool)) (typeFilter : Option String) :
    List GameQuestion :=
  let studied := base.filter (fun q => (pm q.id).isSome)
  let narrowed :=
    match allowedIds with
    | some ok => studied.filter (fun q => ok q.id)
    | none => studied
  match typeFilter with
  | some t => narrowed.filter (fun q => q.type == t)
  | none => narrowed

theorem remixPool_subset_studied (pm : ProgressMap) (base : List GameQuestion)
    (allowedIds : Option (String → Bool)) (typeFilter : Option String) :
    remixPool pm base allowedIds typeFilter ⊆
      base.filter (fun q => (pm q.id).isSome) := by
  unfold remixPool
  cases allowedIds <;> cases typeFilter <;>
    simp only [] <;>
    first
      | exact fun _ h => h
      | exact List.filter_subset' _
      | exact (List.filter_subset' _).trans (List.filter_subset' _)
      | exact ((List.filter_subset' _).trans (List.filter_subset' _)).trans
          (List.filter_subset' _)

/-- C10: in Remix mode the new bucket is always empty: the remix pool only
holds questions with a progress record, so every question it serves is
classified overdue or scheduled, never new. -/
theorem remixPool_no_new_bucket (pm : ProgressMap) (now : ℤ)
    (base : List GameQuestion) (allowedIds : Option (String → Bool))
    (typeFilter : Option String) :
    freshList pm (remixPool pm base allowedIds typeFilter) = [] ∧
    ∀ q ∈ remixPool pm base allowedIds typeFilter,
      isDue pm now q = true ∨ isScheduled pm now q = true := by
  have hSome : ∀ q ∈ remixPool pm base allowedIds typeFilter, (pm q.id).isSome = true :=
    fun q hq =>
      (List.mem_filter.mp (remixPool_subset_studied pm base allowedIds typeFilter hq)).2
  constructor
  · rw [freshList, List.filter_eq_nil_iff]
    intro q hq
    have := hSome q hq
    cases h : pm q.id with
    | none => rw [h] at this; simp at this
    | some nr => simp [isFresh, h]
  · intro q hq
    have := hSome q hq
    cases h : pm q.id with
    | none => rw [h] at this; simp at this
    | some nr =>
      rcases le_or_lt nr now with hle | hlt
      · exact Or.inl (by simp [isDue, h, hle])
      · exact Or.inr (by simp [isScheduled, h, hlt])

/-- Closed witness for `remixPool_no_new_bucket` on a two-question base
where only one question was studied. -/
theorem remixPool_no_new_bucket_witness :
    freshList (fun s => if s = "a" then some 3 else none)
      (remixPool (fun s => if s = "a" then some 3 else none)
        [⟨"a", "c", "T"⟩, ⟨"b", "c", "T"⟩] none none) = [] :=
  (remixPool_no_new_bucket (fun s => if s = "a" then some 3 else none) 0
    [⟨"a", "c", "T"⟩, ⟨"b", "c", "T"⟩] none none).1

/-- Rate-limit entry (`RateLimitEntry` in `lib/loginRateLimit.ts` and
`lib/registerRateLimit.ts`): attempt count and window expiry timestamp. -/
structure RateLimitEntry where
  count : ℕ
  resetAt : ℤ
deriving Repr, DecidableEq

/-- The module-level attempt store, keyed by client identifier. -/
abbrev RateLimitStore : Type := String → Option RateLimitEntry

/-- Outcome of a rate-limit check (`RateLimitResult` in the sources). -/
inductive RateLimitResult where
  | allowed : RateLimitResult
  | blocked (retryAfterSeconds : ℤ) : RateLimitResult
deriving Repr, DecidableEq

/-- Lazy garbage collection `pruneExpired`: drop every entry whose window
has expired (`now >= entry.resetAt`). -/
def pruneExpired (now : ℤ) (s : RateLimitStore) : RateLimitStore :=
  fun k =>
    match s k with
    | some e => if now ≥ e.resetAt then none else some e
    | none => none

/-- Shared body of `checkLoginRateLimit` and `checkRateLimit`; the two
source functions are textually identical up to their constants. -/
def checkRateLimitCore (maxAttempts : ℕ) (windowMs : ℤ) (s : RateLimitStore)
    (now : ℤ) (ip : String) : RateLimitResult × RateLimitStore :=
  let s1 := pruneExpired now s
  match s1 ip with
  | none =>
      (.allowed, fun k => if k = ip then some ⟨1, now + windowMs⟩ else s1 k)
  | some existing =>
      if now ≥ existing.resetAt then
        (.allowed, fun k => if k = ip then some ⟨1, now + windowMs⟩ else s1 k)
      else if existing.count ≥ maxAttempts then
        (.blocked ⌈((existing.resetAt - now : ℤ) : ℚ) / 1000⌉, s1)
      else
        (.allowed, fun k => if k = ip then some ⟨existing.count + 1, existing.resetAt⟩ else s1 k)

/-- The common 15-minute window of both limiter instances. -/
def WINDOW_MS : ℤ := 15 * 60 * 1000

/-- Sign-in limiter (`checkLoginRateLimit`, max 10 attempts). -/
def checkLoginRateLimit : RateLimitStore → ℤ → String → RateLimitResult × RateLimitStore :=
  checkRateLimitCore 10 WINDOW_MS

/-- Registration limiter (`checkRateLimit`, max 5 attempts). -/
def checkRateLimit : RateLimitStore → ℤ → String → RateLimitResult × RateLimitStore :=
  checkRateLimitCore 5 WINDOW_MS

/-- Run a sequence of checks for one key at the given call times,
threading the store. -/
def runCalls (check : RateLimitStore → ℤ → String → RateLimitResult × RateLimitStore)
    (s : RateLimitStore) (ip : String) : List ℤ → List RateLimitResult × RateLimitStore
  | [] => ([], s)
  | t :: ts =>
      let r := check s t ip
      let rest := runCalls check r.2 ip ts
      (r.1 :: rest.1, rest.2)

theorem pruneExpired_keeps (now : ℤ) (s : RateLimitStore) (ip : String)
    (e : RateLimitEntry) (hs : s ip = some e) (hwin : now < e.resetAt) :
    pruneExpired now s ip = some e := by
  simp [pruneExpired, hs, not_le.mpr hwin]

theorem pruneExpired_drops (now : ℤ) (s : RateLimitStore) (ip : String)
    (e : RateLimitEntry) (hs : s ip = some e) (hexp : e.resetAt ≤ now) :
    pruneExpired now s ip = none := by
  simp [pruneExpired, hs, hexp]

theorem checkCore_fresh_step (M : ℕ) (W : ℤ) (s : RateLimitStore) (now : ℤ) (ip : String)
    (hs : pruneExpired now s ip = none) :
    checkRateLimitCore M W s now ip =
      (.allowed, fun k => if k = ip then some ⟨1, now + W⟩ else pruneExpired now s k) := by
  simp only [checkRateLimitCore, hs]

theorem checkCore_counting_step (M : ℕ) (W : ℤ) (s : RateLimitStore) (now : ℤ) (ip : String)
    (e : RateLimitEntry) (hs : s ip = some e) (hwin : now < e.resetAt) (hcount : e.count < M) :
    checkRateLimitCore M W s now ip =
      (.allowed,
        fun k => if k = ip then some ⟨e.count + 1, e.resetAt⟩ else pruneExpired now s k) := by
  have hp := pruneExpired_keeps now s ip e hs hwin
  simp only [checkRateLimitCore, hp, ge_iff_le, not_le.mpr hwin, not_le.mpr hcount,
    if_false, ite_false]

theorem checkCore_blocked_step (M : ℕ) (W : ℤ) (s : RateLimitStore) (now : ℤ) (ip : String)
    (e : RateLimitEntry) (hs : s ip = some e) (hwin : now < e.resetAt) (hcount : M ≤ e.count) :
    checkRateLimitCore M W s now ip =
      (.blocked ⌈((e.resetAt - now : ℤ) : ℚ) / 1000⌉, pruneExpired now s) := by
  have hp := pruneExpired_keeps now s ip e hs hwin
  simp only [checkRateLimitCore, hp, ge_iff_le, not_le.mpr hwin, hcount,
    if_false, ite_false, if_true, ite_true]

theorem runCalls_counting (M : ℕ) (W : ℤ) (ip : String) (R : ℤ) (ts : List ℤ) :
    ∀ (s : RateLimitStore) (c : ℕ), s ip = some ⟨c, R⟩ → (∀ t ∈ ts, t < R) →
      c + ts.length ≤ M →
      (runCalls (checkRateLimitCore M W) s ip ts).1 =
          List.replicate ts.length .allowed ∧
        (runCalls (checkRateLimitCore M W) s ip ts).2 ip = some ⟨c + ts.length, R⟩ := by
  induction ts with
  | nil =>
    intro s c hs _ _
    simpa [runCalls] using hs
  | cons t ts ih =>
    intro s c hs hwin hcnt
    rw [List.length_cons] at hcnt
    have hcm : c < M := by omega
    have hstep := checkCore_counting_step M W s t ip ⟨c, R⟩ hs
      (hwin t (List.mem_cons_self t ts)) hcm
    have hrec := ih (fun k => if k = ip then some ⟨c + 1, R⟩ else pruneExpired t s k)
      (c + 1) (by simp) (fun u hu => hwin u (List.mem_cons_of_mem t hu)) (by omega)
    simp only [runCalls, hstep, List.length_cons]
    constructor
    · simp [hrec.1, List.replicate_succ]
    · have harith : c + (ts.length + 1) = c + 1 + ts.length := by omega
      rw [harith]
      exact hrec.2

theorem limiter_window_generic (M : ℕ) (W : ℤ) (hM : 1 ≤ M) (s : RateLimitStore)
    (ip : String) (t₀ : ℤ) (ts : List ℤ) (t' t'' : ℤ) (hfresh : s ip = none)
    (hlen : ts.length = M - 1) (hts : ∀ t ∈ ts, t₀ ≤ t ∧ t < t₀ + W)
    (ht'b : t' < t₀ + W) (ht'' : t₀ + W ≤ t'') :
    (runCalls (checkRateLimitCore M W) s ip (t₀ :: ts)).1 =
      List.replicate M RateLimitResult.allowed ∧
    (checkRateLimitCore M W (runCalls (checkRateLimitCore M W) s ip (t₀ :: ts)).2 t' ip).1 =
      RateLimitResult.blocked ⌈((t₀ + W - t' : ℤ) : ℚ) / 1000⌉ ∧
    (checkRateLimitCore M W
        (checkRateLimitCore M W
          (runCalls (checkRateLimitCore M W) s ip (t₀ :: ts)).2 t' ip).2 t'' ip).1 =
      RateLimitResult.allowed := by
  have hfresh1 : pruneExpired t₀ s ip = none := by simp [pruneExpired, hfresh]
  have hstep0 := checkCore_fresh_step M W s t₀ ip hfresh1
  have hs0 : (fun k => if k = ip then some (RateLimitEntry.mk 1 (t₀ + W))
      else pruneExpired t₀ s k) ip = some ⟨1, t₀ + W⟩ := by simp
  have hcount := runCalls_counting M W ip (t₀ + W) ts
    (fun k => if k = ip then some (RateLimitEntry.mk 1 (t₀ + W)) else pruneExpired t₀ s k)
    1 hs0 (fun t ht => (hts t ht).2) (by omega)
  have h1M : 1 + ts.length = M := by omega
  have hc2 := hcount.2
  rw [h1M] at hc2
  have hfinal : (runCalls (checkRateLimitCore M W) s ip (t₀ :: ts)).2 ip =
      some ⟨M, t₀ + W⟩ := by
    simp only [runCalls, hstep0]
    exact hc2
  have hblocked := checkCore_blocked_step M W
    ((runCalls (checkRateLimitCore M W) s ip (t₀ :: ts)).2) t' ip ⟨M, t₀ + W⟩
    hfinal ht'b (le_refl M)
  have hkeep := pruneExpired_keeps t' ((runCalls (checkRateLimitCore M W) s ip (t₀ :: ts)).2)
    ip ⟨M, t₀ + W⟩ hfinal ht'b
  have hgone : pruneExpired t''
      (pruneExpired t' ((runCalls (checkRateLimitCore M W) s ip (t₀ :: ts)).2)) ip = none :=
    pruneExpired_drops t'' _ ip ⟨M, t₀ + W⟩ hkeep ht''
  have hstep2 := checkCore_fresh_step M W
    (pruneExpired t' ((runCalls (checkRateLimitCore M W) s ip (t₀ :: ts)).2)) t'' ip hgone
  refine ⟨?_, ?_, ?_⟩
  · simp only [runCalls, hstep0]
    rw [hcount.1, ← List.replicate_succ, show ts.length + 1 = M by omega]
  · rw [hblocked]
  · rw [hblocked]
    simp only [hstep2]

/-- C6: both limiter instances (sign-in: 10 attempts, registration: 5,
15-minute window) allow exactly `maxAttempts` consecutive calls for a
fresh key inside the window, block the following call inside the window,
and allow the key again once the window duration has elapsed since the
window began. -/
theorem rateLimiters_window_behaviour
    (s₁ s₂ : RateLimitStore) (ip₁ ip₂ : String) (t₀ u₀ : ℤ) (ts us : List ℤ)
    (t' t'' u' u'' : ℤ)
    (h1 : s₁ ip₁ = none) (hl1 : ts.length = 9)
    (hts : ∀ t ∈ ts, t₀ ≤ t ∧ t < t₀ + WINDOW_MS)
    (ht'b : t' < t₀ + WINDOW_MS) (ht'' : t₀ + WINDOW_MS ≤ t'')
    (h2 : s₂ ip₂ = none) (hl2 : us.length = 4)
    (hus : ∀ u ∈ us, u₀ ≤ u ∧ u < u₀ + WINDOW_MS)
    (hu'b : u' < u₀ + WINDOW_MS) (hu'' : u₀ + WINDOW_MS ≤ u'') :
    ((runCalls checkLoginRateLimit s₁ ip₁ (t₀ :: ts)).1 =
        List.replicate 10 RateLimitResult.allowed ∧
      (checkLoginRateLimit (runCalls checkLoginRateLimit s₁ ip₁ (t₀ :: ts)).2 t' ip₁).1 =
        RateLimitResult.blocked ⌈((t₀ + WINDOW_MS - t' : ℤ) : ℚ) / 1000⌉ ∧
      (checkLoginRateLimit
          (checkLoginRateLimit
            (runCalls checkLoginRateLimit s₁ ip₁ (t₀ :: ts)).2 t' ip₁).2 t'' ip₁).1 =
        RateLimitResult.allowed) ∧
    ((runCalls checkRateLimit s₂ ip₂ (u₀ :: us)).1 =
        List.replicate 5 RateLimitResult.allowed ∧
      (checkRateLimit (runCalls checkRateLimit s₂ ip₂ (u₀ :: us)).2 u' ip₂).1 =
        RateLimitResult.blocked ⌈((u₀ + WINDOW_MS - u' : ℤ) : ℚ) / 1000⌉ ∧
      (checkRateLimit
          (checkRateLimit
            (runCalls checkRateLimit s₂ ip₂ (u₀ :: us)).2 u' ip₂).2 u'' ip₂).1 =
        RateLimitResult.allowed) :=
  ⟨limiter_window_generic 10 WINDOW_MS (by norm_num) s₁ ip₁ t₀ ts t' t'' h1
      (by omega) hts ht'b ht'',
    limiter_window_generic 5 WINDOW_MS (by norm_num) s₂ ip₂ u₀ us u' u'' h2
      (by omega) hus hu'b hu''⟩

/-- Closed witness for `rateLimiters_window_behaviour`: all calls at time
0, retry after the full window. -/
theorem rateLimiters_window_behaviour_witness :
    (runCalls checkLoginRateLimit (fun _ => none) "k" (0 :: List.replicate 9 0)).1 =
      List.replicate 10 RateLimitResult.allowed ∧
    (runCalls checkRateLimit (fun _ => none) "k" (0 :: List.replicate 4 0)).1 =
      List.replicate 5 RateLimitResult.allowed :=
  have h := rateLimiters_window_behaviour (fun _ => none) (fun _ => none) "k" "k" 0 0
    (List.replicate 9 0) (List.replicate 4 0) 0 WINDOW_MS 0 WINDOW_MS
    rfl (by simp)
    (fun t ht => by rw [List.eq_of_mem_replicate ht]; norm_num [WINDOW_MS])
    (by norm_num [WINDOW_MS]) (by norm_num)
    rfl (by simp)
    (fun u hu => by rw [List.eq_of_mem_replicate hu]; norm_num [WINDOW_MS])
    (by norm_num [WINDOW_MS]) (by norm_num)
  ⟨h.1.1, h.2.1⟩

/-- C7 counterexample: in the registration limiter, two blocked calls one
millisecond apart inside the same blocked window both receive
retryAfterSeconds 900, so the value does not strictly decrease whenever
real time advances. The blocked window is reached by five attempts for a
fresh key at time 0. -/
theorem blocked_retryAfter_not_strictly_decreasing :
    (checkRateLimit ((runCalls checkRateLimit (fun _ => none) "k" [0, 0, 0, 0, 0]).2)
        100 "k").1 = RateLimitResult.blocked 900 ∧
    (checkRateLimit
        ((checkRateLimit ((runCalls checkRateLimit (fun _ => none) "k" [0, 0, 0, 0, 0]).2)
            100 "k").2) 101 "k").1 = RateLimitResult.blocked 900 ∧
    ¬ (900 : ℤ) < 900 := by
  have hstep0 := checkCore_fresh_step 5 WINDOW_MS (fun _ => none) 0 "k" rfl
  have hs0 : (fun k => if k = "k" then some (RateLimitEntry.mk 1 (0 + WINDOW_MS))
      else pruneExpired 0 (fun _ => none) k) "k" = some ⟨1, 0 + WINDOW_MS⟩ := by simp
  have hcount := runCalls_counting 5 WINDOW_MS "k" (0 + WINDOW_MS) [0, 0, 0, 0]
    (fun k => if k = "k" then some (RateLimitEntry.mk 1 (0 + WINDOW_MS))
      else pruneExpired 0 (fun _ => none) k) 1 hs0
    (by intro t ht; simp at ht; rw [ht]; norm_num [WINDOW_MS]) (by simp)
  have hc2 := hcount.2
  norm_num at hc2
  have hfinal : (runCalls checkRateLimit (fun _ => none) "k" [0, 0, 0, 0, 0]).2 "k" =
      some ⟨5, 0 + WINDOW_MS⟩ := by
    show (runCalls (checkRateLimitCore 5 WINDOW_MS) (fun _ => none) "k"
      (0 :: [0, 0, 0, 0])).2 "k" = some ⟨5, 0 + WINDOW_MS⟩
    simp only [runCalls, hstep0]
    exact hc2
  have hb1 := checkCore_blocked_step 5 WINDOW_MS
    ((runCalls checkRateLimit (fun _ => none) "k" [0, 0, 0, 0, 0]).2) 100 "k"
    ⟨5, 0 + WINDOW_MS⟩ hfinal (by norm_num [WINDOW_MS]) (le_refl 5)
  have hkeep := pruneExpired_keeps 100
    ((runCalls checkRateLimit (fun _ => none) "k" [0, 0, 0, 0, 0]).2) "k"
    ⟨5, 0 + WINDOW_MS⟩ hfinal (by norm_num [WINDOW_MS])
  have hb2 := checkCore_blocked_step 5 WINDOW_MS
    (pruneExpired 100 ((runCalls checkRateLimit (fun _ => none) "k" [0, 0, 0, 0, 0]).2))
    101 "k" ⟨5, 0 + WINDOW_MS⟩ hkeep (by norm_num [WINDOW_MS]) (le_refl 5)
  refine ⟨?_, ?_, by norm_num⟩
  · show (checkRateLimitCore 5 WINDOW_MS
      ((runCalls checkRateLimit (fun _ => none) "k" [0, 0, 0, 0, 0]).2) 100 "k").1 =
        RateLimitResult.blocked 900
    rw [hb1]
    norm_num [WINDOW_MS, Int.ceil_eq_iff]
  · have hfst := congrArg Prod.fst hb2
    refine Eq.trans ?_ (hfst.trans ?_)
    · rfl
    · norm_num [WINDOW_MS, Int.ceil_eq_iff]

/-- C7 (amended): for a blocked key, every call inside the window returns
Blocked with `retryAfterSeconds = ceil((windowResetAt - now)/1000)`; as
real time advances inside the same blocked window this value never
increases, and it strictly decreases when the two calls are at least one
second (1000 ms) apart. -/
theorem blocked_retryAfter_formula_and_monotone (M : ℕ) (W : ℤ) (s : RateLimitStore)
    (ip : String) (c : ℕ) (R t1 t2 : ℤ) (hs : s ip = some ⟨c, R⟩) (hM : M ≤ c)
    (h1 : t1 < R) (h2 : t2 < R) (h12 : t1 ≤ t2) :
    (checkRateLimitCore M W s t1 ip).1 =
      RateLimitResult.blocked ⌈((R - t1 : ℤ) : ℚ) / 1000⌉ ∧
    (checkRateLimitCore M W (checkRateLimitCore M W s t1 ip).2 t2 ip).1 =
      RateLimitResult.blocked ⌈((R - t2 : ℤ) : ℚ) / 1000⌉ ∧
    ⌈((R - t2 : ℤ) : ℚ) / 1000⌉ ≤ ⌈((R - t1 : ℤ) : ℚ) / 1000⌉ ∧
    (t1 + 1000 ≤ t2 →
      ⌈((R - t2 : ℤ) : ℚ) / 1000⌉ < ⌈((R - t1 : ℤ) : ℚ) / 1000⌉) := by
  have hb1 := checkCore_blocked_step M W s t1 ip ⟨c, R⟩ hs h1 hM
  have hkeep := pruneExpired_keeps t1 s ip ⟨c, R⟩ hs h1
  have hb2 := checkCore_blocked_step M W (pruneExpired t1 s) t2 ip ⟨c, R⟩ hkeep h2 hM
  refine ⟨by rw [hb1], ?_, ?_, ?_⟩
  · have hfst := congrArg Prod.fst hb2
    exact Eq.trans (by rw [hb1]) hfst
  · apply Int.ceil_mono
    have h12q : (t1 : ℚ) ≤ (t2 : ℚ) := by exact_mod_cast h12
    have : ((R - t2 : ℤ) : ℚ) ≤ ((R - t1 : ℤ) : ℚ) := by push_cast; linarith
    linarith
  · intro hsec
    have hsecq : (t1 : ℚ) + 1000 ≤ (t2 : ℚ) := by exact_mod_cast hsec
    have hstep : ((R - t2 : ℤ) : ℚ) / 1000 ≤ ((R - t1 : ℤ) : ℚ) / 1000 - 1 := by
      push_cast
      linarith
    have hle := Int.ceil_mono hstep
    rw [Int.ceil_sub_one] at hle
    omega

/-- Closed witness for `blocked_retryAfter_formula_and_monotone` at a
blocked entry with two calls 1500 ms apart. -/
theorem blocked_retryAfter_formula_and_monotone_witness :
    (checkRateLimitCore 5 WINDOW_MS (fun _ => some ⟨5, 10000⟩) 0 "k").1 =
      RateLimitResult.blocked ⌈((10000 - 0 : ℤ) : ℚ) / 1000⌉ ∧
    ⌈((10000 - 1500 : ℤ) : ℚ) / 1000⌉ < ⌈((10000 - 0 : ℤ) : ℚ) / 1000⌉ :=
  have h := blocked_retryAfter_formula_and_monotone 5 WINDOW_MS
    (fun _ => some ⟨5, 10000⟩) "k" 5 10000 0 1500 rfl (le_refl 5)
    (by norm_num) (by norm_num) (by norm_num)
  ⟨h.1, h.2.2.2 (by norm_num)⟩

/-- Persisted progress row (`UserProgress`) as read back by the session
route before the loop. -/
structure UserProgress where
  repetition : ℤ
  interval : ℚ
  easinessFactor : ℚ
deriving Repr, DecidableEq

/-- One graded answer of a submission (an element of `results` in the
session route body): a question id and a quality grade 0-5. -/
structure GradedAnswer where
  questionId : String
  quality : ℕ
deriving Repr, DecidableEq

/-- Response item (`ScheduledItem` in the session route); `nextReview` is
`now + interval` days, determined by `interval`. -/
structure ScheduledItem where
  questionId : String
  interval : ℚ
deriving Repr, DecidableEq

/-- Schedule computed for one graded answer: `calculateSM2` on the prior
record, with the route's defaults (`interval 1`, `repetition 0`,
`easinessFactor 2.5`) for a question without one. -/
def scheduleFor (existing : String → Option UserProgress) (r : GradedAnswer) : SM2Result :=
  let prev := existing r.questionId
  calculateSM2
    { quality := r.quality,
      previousInterval := (prev.map (fun p => p.interval)).getD 1,
      previousRepetition := (prev.map (fun p => p.repetition)).getD 0,
      previousEF := (prev.map (fun p => p.easinessFactor)).getD (5/2) }

/-- One iteration of the session route's per-item loop: the schedule is
always computed, the write is attempted (`writeOk` tells whether the
upsert succeeds), a failure is skipped silently. -/
def sessionStep (existing : String → Option UserProgress) (writeOk : String → Bool)
    (acc : ℕ × List ScheduledItem) (r : GradedAnswer) : ℕ × List ScheduledItem :=
  let sm2 := scheduleFor existing r
  if writeOk r.questionId then
    (acc.1 + 1, acc.2 ++ [⟨r.questionId, sm2.interval⟩])
  else acc

/-- The whole per-item loop of the session route `POST` (lines 68-106):
saved counter and scheduled list accumulated over the submission. -/
def processResults (existing : String → Option UserProgress) (writeOk : String → Bool)
    (results : List GradedAnswer) : ℕ × List ScheduledItem :=
  results.foldl (sessionStep existing writeOk) (0, [])

theorem sessionFold_spec (existing : String → Option UserProgress) (writeOk : String → Bool)
    (results : List GradedAnswer) :
    ∀ (n : ℕ) (acc : List ScheduledItem),
      results.foldl (sessionStep existing writeOk) (n, acc) =
        (n + (results.filter (fun r => writeOk r.questionId)).length,
          acc ++ (results.filter (fun r => writeOk r.questionId)).map
            (fun r => ⟨r.questionId, (scheduleFor existing r).interval⟩)) := by
  induction results with
  | nil =>
    intro n acc
    simp
  | cons r rest ih =>
    intro n acc
    rw [List.foldl_cons, List.filter_cons]
    by_cases h : writeOk r.questionId
    · have hstep : sessionStep existing writeOk (n, acc) r =
          (n + 1, acc ++ [⟨r.questionId, (scheduleFor existing r).interval⟩]) := by
        simp [sessionStep, h]
      rw [hstep, ih]
      simp [h, Prod.ext_iff, List.append_assoc]
      omega
    · have hstep : sessionStep existing writeOk (n, acc) r = (n, acc) := by
        simp [sessionStep, h]
      rw [hstep, ih]
      simp [h]

/-- C9: for a valid submission of 1-20 graded answers, a persistence
failure of one item does not abort the rest: the saved count equals
exactly the number of items whose write succeeded, and the scheduled list
holds exactly the successfully written items, each with the schedule
computed from its own prior record, failures omitted. -/
theorem processResults_partial_failure (existing : String → Option UserProgress)
    (writeOk : String → Bool) (results : List GradedAnswer)
    (hmin : 1 ≤ results.length) (hmax : results.length ≤ 20) :
    (processResults existing writeOk results).1 =
      (results.filter (fun r => writeOk r.questionId)).length ∧
    (processResults existing writeOk results).2 =
      (results.filter (fun r => writeOk r.questionId)).map
        (fun r => ⟨r.questionId, (scheduleFor existing r).interval⟩) := by
  have h := sessionFold_spec existing writeOk results 0 []
  rw [processResults, h]
  simp

/-- Closed witness for `processResults_partial_failure`: a three-item
submission whose middle item fails to persist saves exactly two items. -/
theorem processResults_partial_failure_witness :
    (processResults (fun _ => none) (fun s => s ≠ "b")
        [⟨"a", 5⟩, ⟨"b", 5⟩, ⟨"c", 2⟩]).1 =
      (([⟨"a", 5⟩, ⟨"b", 5⟩, ⟨"c", 2⟩] : List GradedAnswer).filter
        (fun r => r.questionId ≠ "b")).length :=
  (processResults_partial_failure (fun _ => none) (fun s => s ≠ "b")
    [⟨"a", 5⟩, ⟨"b", 5⟩, ⟨"c", 2⟩] (by norm_num) (by norm_num)).1

/-- Insertion-ordered grouping step of `interleaveQuestions` in the game
store: append the question to its category's pool, or open a new pool at
the end (JavaScript `Map` preserves first-insertion order of keys). -/
def addToGroup (groups : List (String × List GameQuestion)) (q : GameQuestion) :
    List (String × List GameQuestion) :=
  match groups with
  | [] => [(q.category, [q])]
  | (c, items) :: rest =>
      if c = q.category then (c, items ++ [q]) :: rest
      else (c, items) :: addToGroup rest q

/-- The `byCategory` map of `interleaveQuestions`, as an insertion-ordered
association list. -/
def groupByCategory (questions : List GameQuestion) : List (String × List GameQuestion) :=
  questions.foldl addToGroup []

/-- JavaScript `Array.prototype.pop`: remove and return the last element. -/
def popLast (l : List GameQuestion) : Option (GameQuestion × List GameQuestion) :=
  match l.getLast? with
  | none => none
  | some x => some (x, l.dropLast)

/-- One round of the round-robin loop of `interleaveQuestions`: visit the
pools in order, pop one item from each non-empty pool, stop early when the
remaining capacity reaches zero. Returns the items picked this round, the
updated pools, and the `addedThisRound` flag. -/
def onePass : List (List GameQuestion) → ℕ →
    List GameQuestion × List (List GameQuestion) × Bool
  | [], _ => ([], [], false)
  | pools, 0 => ([], pools, false)
  | p :: ps, c + 1 =>
      match popLast p with
      | none =>
          let r := onePass ps (c + 1)
          (r.1, p :: r.2.1, r.2.2)
      | some (x, p') =>
          let r := onePass ps c
          (x :: r.1, p' :: r.2.1, true)

/-- The while loop of `interleaveQuestions`, with explicit fuel. Each
productive round consumes at least one unit of capacity, so `cap ≤ fuel`
is invariant when starting with `fuel = cap` and the fuel never runs out
before the loop's own exit conditions. -/
def rrLoop : ℕ → List (List GameQuestion) → ℕ → List GameQuestion
  | 0, _, _ => []
  | fuel + 1, pools, cap =>
      if cap = 0 then []
      else
        let r := onePass pools cap
        if r.2.2 then r.1 ++ rrLoop fuel r.2.1 (cap - r.1.length) else r.1

/-- The interleaved sequence of `interleaveQuestions` before its final
shuffle, for already-shuffled category pools. -/
def roundRobinSelect (pools : List (List GameQuestion)) (maxQuestions : ℕ) :
    List GameQuestion :=
  rrLoop maxQuestions pools maxQuestions

/-- One possible outcome of `interleaveQuestions questions maxQuestions`:
the category pools are shuffled independently (any permutation is a
possible Fisher-Yates outcome), round-robin-popped, and the interleaved
sequence is shuffled once more. -/
def InterleaveOutcome (questions : List GameQuestion) (maxQuestions : ℕ)
    (out : List GameQuestion) : Prop :=
  ∃ pools : List (List GameQuestion),
    List.Forall₂ List.Perm pools ((groupByCategory questions).map Prod.snd) ∧
    out.Perm (roundRobinSelect pools maxQuestions)

/-- C8 counterexample: with four category-A questions, one category-B
question and maxQuestions 5, the identity outcome of the per-category
shuffles followed by a final-shuffle outcome that places the four A
questions first is a possible outcome of `interleaveQuestions`; its
category sequence is A, A, A, A, B — a run of four same-category
questions at the start of the session although two categories are
present. -/
theorem interleave_long_start_run_possible :
    InterleaveOutcome
      [⟨"a1", "A", "T"⟩, ⟨"a2", "A", "T"⟩, ⟨"a3", "A", "T"⟩, ⟨"a4", "A", "T"⟩,
        ⟨"b1", "B", "T"⟩] 5
      [⟨"a4", "A", "T"⟩, ⟨"a3", "A", "T"⟩, ⟨"a2", "A", "T"⟩, ⟨"a1", "A", "T"⟩,
        ⟨"b1", "B", "T"⟩] ∧
    ([⟨"a4", "A", "T"⟩, ⟨"a3", "A", "T"⟩, ⟨"a2", "A", "T"⟩, ⟨"a1", "A", "T"⟩,
        ⟨"b1", "B", "T"⟩] : List GameQuestion).map (fun q => q.category) =
      ["A", "A", "A", "A", "B"] := by
  refine ⟨⟨[[⟨"a1", "A", "T"⟩, ⟨"a2", "A", "T"⟩, ⟨"a3", "A", "T"⟩, ⟨"a4", "A", "T"⟩],
    [⟨"b1", "B", "T"⟩]], ?_, ?_⟩, by decide⟩
  · exact List.Forall₂.cons (List.Perm.refl _)
      (List.Forall₂.cons (List.Perm.refl _) List.Forall₂.nil)
  · decide

/-- Coherence of a grouping: every question stored in a pool carries that
pool's category key. -/
def GroupsCoherent (groups : List (String × List GameQuestion)) : Prop :=
  ∀ g ∈ groups, ∀ x ∈ g.2, x.category = g.1

theorem addToGroup_keys (groups : List (String × List GameQuestion)) (q : GameQuestion) :
    (addToGroup groups q).map Prod.fst =
      if q.category ∈ groups.map Prod.fst then groups.map Prod.fst
      else groups.map Prod.fst ++ [q.category] := by
  induction groups with
  | nil => simp [addToGroup]
  | cons g rest ih =>
    obtain ⟨c, items⟩ := g
    by_cases h : c = q.category
    · simp [addToGroup, h]
    · have h' : q.category ≠ c := fun e => h e.symm
      simp only [addToGroup, if_neg h, List.map_cons]
      rw [ih]
      by_cases h2 : q.category ∈ rest.map Prod.fst
      · simp [h2, h']
      · simp [h2, h']

theorem foldl_addToGroup_keys_nodup (questions : List GameQuestion) :
    ∀ acc : List (String × List GameQuestion), (acc.map Prod.fst).Nodup →
      ((questions.foldl addToGroup acc).map Prod.fst).Nodup := by
  induction questions with
  | nil =>
    intro acc h
    simpa using h
  | cons q rest ih =>
    intro acc h
    rw [List.foldl_cons]
    apply ih
    rw [addToGroup_keys]
    split_ifs with h2
    · exact h
    · simp [List.nodup_append, h, h2]

theorem addToGroup_coherent (q : GameQuestion) :
    ∀ groups, GroupsCoherent groups → GroupsCoherent (addToGroup groups q) := by
  intro groups
  induction groups with
  | nil =>
    intro _ g hg x hx
    simp [addToGroup] at hg
    subst hg
    simp at hx
    subst hx
    rfl
  | cons gr rest ih =>
    intro h g hg
    obtain ⟨c, items⟩ := gr
    have hrest : GroupsCoherent rest := fun g' hg' => h g' (List.mem_cons_of_mem _ hg')
    by_cases hc : c = q.category
    · rw [addToGroup, if_pos hc] at hg
      rcases List.mem_cons.mp hg with hg1 | hg2
      · subst hg1
        intro x hx
        rcases List.mem_append.mp hx with hx1 | hx2
        · exact h (c, items) (List.mem_cons_self _ _) x hx1
        · simp at hx2
          subst hx2
          exact hc.symm
      · exact h g (List.mem_cons_of_mem _ hg2)
    · rw [addToGroup, if_neg hc] at hg
      rcases List.mem_cons.mp hg with hg1 | hg2
      · subst hg1
        exact h (c, items) (List.mem_cons_self _ _)
      · exact ih hrest g hg2

theorem foldl_addToGroup_coherent (questions : List GameQuestion) :
    ∀ acc, GroupsCoherent acc → GroupsCoherent (questions.foldl addToGroup acc) := by
  induction questions with
  | nil =>
    intro acc h
    simpa using h
  | cons q rest ih =>
    intro acc h
    rw [List.foldl_cons]
    exact ih _ (addToGroup_coherent q acc h)

theorem popLast_mem (l : List GameQuestion) (x : GameQuestion) (l' : List GameQuestion)
    (h : popLast l = some (x, l')) : x ∈ l := by
  unfold popLast at h
  cases hg : l.getLast? with
  | none =>
    rw [hg] at h
    exact absurd h (by simp)
  | some y =>
    rw [hg] at h
    simp only [Option.some.injEq, Prod.mk.injEq] at h
    obtain ⟨hyx, _⟩ := h
    subst hyx
    obtain ⟨hne, heq⟩ := List.mem_getLast?_eq_getLast (by rw [hg]; rfl)
    rw [heq]
    exact List.getLast_mem hne

theorem onePass_categories_sublist :
    ∀ (cs : List String) (pools : List (List GameQuestion)) (cap : ℕ),
      List.Forall₂ (fun c p => ∀ x ∈ p, x.category = c) cs pools →
      ((onePass pools cap).1.map (fun q => q.category)).Sublist cs := by
  intro cs
  induction cs with
  | nil =>
    intro pools cap h
    cases h
    cases cap <;> simp [onePass]
  | cons c cs ih =>
    intro pools cap h
    cases h with
    | cons hc hrest =>
      rename_i p ps
      cases cap with
      | zero => simp [onePass]
      | succ c' =>
        cases hpop : popLast p with
        | none =>
          simp only [onePass, hpop]
          exact (ih ps (c' + 1) hrest).cons c
        | some pair =>
          obtain ⟨x, p'⟩ := pair
          simp only [onePass, hpop]
          have hx : x.category = c := hc x (popLast_mem p x p' hpop)
          rw [List.map_cons, hx]
          exact (ih ps c' hrest).cons₂ c

theorem pools_coherent_of_perm (cs : List String)
    (pools pools₀ : List (List GameQuestion))
    (hp : List.Forall₂ List.Perm pools pools₀)
    (h0 : List.Forall₂ (fun c p => ∀ x ∈ p, x.category = c) cs pools₀) :
    List.Forall₂ (fun c p => ∀ x ∈ p, x.category = c) cs pools := by
  induction hp generalizing cs with
  | nil =>
    cases h0
    exact List.Forall₂.nil
  | cons hpq hrest ih =>
    cases h0 with
    | cons hcp h0rest =>
      exact List.Forall₂.cons (fun x hx => hcp x (hpq.subset hx)) (ih _ h0rest)

theorem groups_coherent_forall₂ (groups : List (String × List GameQuestion))
    (h : GroupsCoherent groups) :
    List.Forall₂ (fun c p => ∀ x ∈ p, x.category = c)
      (groups.map Prod.fst) (groups.map Prod.snd) := by
  induction groups with
  | nil => exact List.Forall₂.nil
  | cons g rest ih =>
    exact List.Forall₂.cons (fun x hx => h g (List.mem_cons_self _ _) x hx)
      (ih fun g' hg' => h g' (List.mem_cons_of_mem _ hg'))

theorem roundRobinSelect_take_first_round (pools : List (List GameQuestion)) (maxQ : ℕ) :
    (roundRobinSelect pools maxQ).take (onePass pools maxQ).1.length =
      (onePass pools maxQ).1 := by
  cases maxQ with
  | zero => cases pools <;> simp [roundRobinSelect, rrLoop, onePass]
  | succ m =>
    rw [roundRobinSelect]
    simp only [rrLoop, Nat.succ_ne_zero, if_false, ite_false]
    by_cases hadd : (onePass pools (m + 1)).2.2 = true
    · simp only [hadd, if_true, ite_true]
      exact List.take_left _ _
    · simp only [Bool.not_eq_true] at hadd
      simp only [hadd, Bool.false_eq_true, if_false, ite_false]
      simp

/-- C8 (amended): the final shuffle of `interleaveQuestions` can emit any
permutation of the interleaved sequence, including one beginning with a
long same-category run, so the no-long-run guarantee only holds before
that shuffle: the interleaved sequence starts with its first round-robin
round, whose categories are pairwise distinct (at most one question per
category), and the delivered output is a permutation of the interleaved
sequence. -/
theorem interleave_first_round_one_per_category (questions : List GameQuestion)
    (maxQ : ℕ) (pools : List (List GameQuestion)) (out : List GameQuestion)
    (hpools : List.Forall₂ List.Perm pools ((groupByCategory questions).map Prod.snd))
    (hout : out.Perm (roundRobinSelect pools maxQ)) :
    (roundRobinSelect pools maxQ).take (onePass pools maxQ).1.length =
      (onePass pools maxQ).1 ∧
    ((onePass pools maxQ).1.map (fun q => q.category)).Nodup ∧
    out.Perm (roundRobinSelect pools maxQ) := by
  refine ⟨roundRobinSelect_take_first_round pools maxQ, ?_, hout⟩
  have hco : GroupsCoherent (groupByCategory questions) :=
    foldl_addToGroup_coherent questions [] (fun g hg => absurd hg (List.not_mem_nil g))
  have h0 := groups_coherent_forall₂ _ hco
  have hcs := pools_coherent_of_perm _ pools _ hpools h0
  have hsub := onePass_categories_sublist _ pools maxQ hcs
  have hkeys : ((groupByCategory questions).map Prod.fst).Nodup :=
    foldl_addToGroup_keys_nodup questions [] (by simp)
  exact List.Nodup.sublist hsub hkeys

/-- Closed witness for `interleave_first_round_one_per_category` on the
four-A one-B pool with identity shuffles. -/
theorem interleave_first_round_one_per_category_witness :
    ((onePass [[⟨"a1", "A", "T"⟩, ⟨"a2", "A", "T"⟩, ⟨"a3", "A", "T"⟩, ⟨"a4", "A", "T"⟩],
        [⟨"b1", "B", "T"⟩]] 5).1.map (fun q => q.category)).Nodup :=
  (interleave_first_round_one_per_category
    [⟨"a1", "A", "T"⟩, ⟨"a2", "A", "T"⟩, ⟨"a3", "A", "T"⟩, ⟨"a4", "A", "T"⟩,
      ⟨"b1", "B", "T"⟩] 5
    [[⟨"a1", "A", "T"⟩, ⟨"a2", "A", "T"⟩, ⟨"a3", "A", "T"⟩, ⟨"a4", "A", "T"⟩],
      [⟨"b1", "B", "T"⟩]]
    (roundRobinSelect [[⟨"a1", "A", "T"⟩, ⟨"a2", "A", "T"⟩, ⟨"a3", "A", "T"⟩,
      ⟨"a4", "A", "T"⟩], [⟨"b1", "B", "T"⟩]] 5)
    (List.Forall₂.cons (List.Perm.refl _)
      (List.Forall₂.cons (List.Perm.refl _) List.Forall₂.nil))
    (List.Perm.refl _)).2.1
